import Mathlib

/-!
# mergepkg: a shallow embedding of `main.go`

The program reads a list of package directories, computes the sorted union of
their imports (`combinedImports`), and writes one merged compilation unit to
standard output (`main`).

Everything the program obtains from outside itself is a field of `Env`: the
file system (`os.Stat`, `os.ReadDir`, `build.Default.ImportDir`,
`parser.ParseFile`), the clock (`time.Now`), the iteration order of a Go map,
and the pure standard-library functions whose code is not part of the
repository (`path.Join`, `format.Node`, `format.Source`, the `%#v` rendering of
a string).  The environment is a pure function of its arguments: the file
system is assumed not to change while the program runs.

Go strings are modelled by Lean strings (sequences of Unicode code points); for
valid UTF-8 the bytewise order and suffix test of Go agree with the code point
order and suffix test used here.

The `bytes.Buffer` named `output` is modelled by the sequence of writes made to
it (`Write`); `Bytes` gives its contents.
-/

namespace Mergepkg

/-! ## Strings -/

/-- Go `strings.HasSuffix`. -/
def HasSuffix (s suffix : String) : Bool :=
  suffix.data.isSuffixOf s.data

/-- Helper of `Split`: the pieces of a character list around each `sep`. -/
def splitChars (sep : Char) : List Char → List (List Char)
  | [] => [[]]
  | c :: cs =>
    if c = sep then [] :: splitChars sep cs
    else
      match splitChars sep cs with
      | [] => [[c]]
      | piece :: pieces => (c :: piece) :: pieces

/-- Go `strings.Split(s, sep)` for a separator of one character. -/
def Split (s : String) (sep : Char) : List String :=
  (splitChars sep s.data).map String.mk

/-- Go `unicode.IsSpace`. -/
def IsSpace (c : Char) : Bool :=
  let n := c.toNat
  (9 ≤ n && n ≤ 13) || n = 32 || n = 133 || n = 160 || n = 5760 ||
  (8192 ≤ n && n ≤ 8202) || n = 8232 || n = 8233 || n = 8239 || n = 8287 || n = 12288

/-- Go `strings.TrimSpace`. -/
def TrimSpace (s : String) : String :=
  String.mk ((s.data.dropWhile IsSpace).reverse.dropWhile IsSpace).reverse

/-- Go `strings.ReplaceAll(s, old, new)` for an `old` of one character. -/
def ReplaceAll (s : String) (old : Char) (new : String) : String :=
  String.mk (s.data.flatMap (fun c => if c = old then new.data else [c]))

/-- Go `fmt.Fprintln`: the operands separated by spaces, then a newline. -/
def Sprintln (args : List String) : String :=
  String.intercalate " " args ++ "\n"

/-- Go `sort.Strings`: increasing order of the strings. -/
def sortStrings (l : List String) : List String :=
  l.insertionSort (fun a b => a.data ≤ b.data)

/-! ## Syntax trees -/

/-- The tokens a `GenDecl` can carry (`go/token`). -/
inductive Token
  | IMPORT
  | CONST
  | TYPE
  | VAR
  deriving DecidableEq, Repr

/-- A top-level declaration (`ast.Decl`); `node` stands for the subtree. -/
inductive Decl
  | GenDecl (Tok : Token) (node : String)
  | FuncDecl (node : String)
  | BadDecl (node : String)
  deriving DecidableEq, Repr

/-- The fields of `ast.File` that the program reads. -/
structure File where
  Decls : List Decl
  deriving DecidableEq, Repr

/-- The fields of `build.Package` that the program reads. -/
structure Package where
  Name : String
  Imports : List String
  deriving DecidableEq, Repr

/-- The methods of `os.DirEntry` that the program calls. -/
structure DirEntry where
  Name : String
  IsDir : Bool
  deriving DecidableEq, Repr

/-- The result `(stat, err)` of `os.Stat`. -/
inductive StatResult
  /-- The call succeeded: `err == nil`, and `stat.IsDir()` is the argument. -/
  | info (IsDir : Bool)
  /-- The call failed with `os.IsNotExist(err)`; `stat` is nil. -/
  | errNotExist
  /-- The call failed with another error (permission, ENOTDIR, ...); `stat` is nil. -/
  | errOther (msg : String)
  deriving DecidableEq, Repr

/-! ## Environment -/

/-- The iteration order of `for k := range m` over a map: some arrangement of
the keys. -/
structure RangeOrder where
  order : List String → List String
  perm : ∀ keys, (order keys).Perm keys

/-- Everything outside the program. -/
structure Env where
  /-- Go `os.Stat`. -/
  Stat : String → StatResult
  /-- Go `build.Default.ImportDir(dir, build.ImportComment)`. -/
  ImportDir : String → Except String Package
  /-- Go `os.ReadDir`. -/
  ReadDir : String → Except String (List DirEntry)
  /-- Go `parser.ParseFile(fset, filepath, nil, 0)`. -/
  ParseFile : String → Except String File
  /-- Go `path.Join(dir, name)`. -/
  Join : String → String → String
  /-- Go `format.Node(output, fset, declaration)`: the text written and the error. -/
  Node : Decl → String × Option String
  /-- Go `format.Source`. -/
  Source : String → Except String String
  /-- Go `fmt.Sprintf` with the verb `%#v` on a string. -/
  Quote : String → String
  /-- The text `time.Now()` prints as. -/
  Now : String
  /-- The order in which `range all` visits the keys. -/
  range : RangeOrder

/-! ## Program state -/

/-- One write to the buffer `output`. -/
inductive Write
  /-- A call `emit(args...)`, that is `fmt.Fprintln(output, args...)`. -/
  | line (args : List String)
  /-- A call `format.Node(output, fset, d)` that wrote `text`. -/
  | node (d : Decl) (text : String)
  deriving DecidableEq, Repr

/-- The bytes of one write. -/
def Write.bytes : Write → String
  | .line args => Sprintln args
  | .node _ text => text

/-- The contents of the buffer: `output.Bytes()`. -/
def Bytes (ws : List Write) : String :=
  String.join (ws.map Write.bytes)

/-- How a run ends before its last statement. -/
inductive Halt
  /-- A call of `log.Fatal`: the message goes to the log and the process exits. -/
  | fatal (msg : String)
  /-- A run-time panic. -/
  | panic (msg : String)
  deriving DecidableEq, Repr

/-- The observable state of a run. -/
structure State where
  /-- The buffer `output`. -/
  output : List Write
  /-- The messages of `log.Println`. -/
  log : List String
  /-- The writes to `os.Stdout`. -/
  stdout : List String
  deriving DecidableEq, Repr

/-- The state when `main` starts. -/
def State.init : State := ⟨[], [], []⟩

/-- The closure `emit` of `main`. -/
def State.emit (st : State) (args : List String) : State :=
  { st with output := st.output ++ [Write.line args] }

/-- Go `log.Println(err)`. -/
def State.logln (st : State) (msg : String) : State :=
  { st with log := st.log ++ [msg] }

/-- A finished run: the last state and, if the run was cut short, how. -/
structure Result where
  st : State
  halt : Option Halt
  deriving DecidableEq, Repr

/-! ## The program -/

/-- The directory check of lines 23-26 and 76-79:
`if os.IsNotExist(err) || !stat.IsDir() then log.Fatal(...)`.
When `os.Stat` fails with another error `stat` is nil and `stat.IsDir()` panics. -/
def statCheck (w : Env) (dir : String) : Option Halt :=
  match w.Stat dir with
  | .errNotExist => some (.fatal ("Specified directory does not exist:" ++ dir))
  | .errOther _ => some (.panic "invalid memory address or nil pointer dereference")
  | .info isDir =>
    if !isDir then some (.fatal ("Specified directory does not exist:" ++ dir))
    else none

/-- The statement `all[imp] = struct{}{}` on a map kept as the list of its keys. -/
def mapInsert (all : List String) (imp : String) : List String :=
  if imp ∈ all then all else all ++ [imp]

/-- The first loop of `combinedImports` (lines 22-34). -/
def importsLoop (w : Env) : List String → List String → Except Halt (List String)
  | [], all => .ok all
  | dir :: dirs, all =>
    match statCheck w dir with
    | some h => .error h
    | none =>
      match w.ImportDir dir with
      | .error e => .error (.fatal e)
      | .ok imported => importsLoop w dirs (imported.Imports.foldl mapInsert all)

/-- The function `combinedImports` (lines 20-40). -/
def combinedImports (w : Env) (dirs : List String) : Except Halt (List String) :=
  match importsLoop w dirs [] with
  | .error h => .error h
  | .ok all => .ok (sortStrings (w.range.order all))

/-- The struct `Config`. -/
structure Config where
  Dirs : List String
  Header : String
  deriving DecidableEq, Repr

/-- The function `parseConfig` (lines 47-68), from the values of the two flags
after `flag.Parse`. -/
def parseConfig (header dirs : String) : Except Halt Config :=
  if dirs.length = 0 then
    .error (.fatal "Usage: mergepkg -dirs '<colon-separated-listing>'")
  else
    .ok { Dirs := Split dirs ':', Header := ReplaceAll (TrimSpace header) '\n' "\n// " }

/-- The test `ok && g.Tok == token.IMPORT` of line 125. -/
def isImportDecl : Decl → Bool
  | .GenDecl .IMPORT _ => true
  | _ => false

/-- The loop over `f.Decls` (lines 123-134). -/
def declLoop (w : Env) : List Decl → State → State
  | [], st => st
  | declaration :: rest, st =>
    if isImportDecl declaration then declLoop w rest st
    else
      let st1 := { st with output := st.output ++ [Write.node declaration (w.Node declaration).1] }
      let st2 := st1.emit []
      match (w.Node declaration).2 with
      | some err => st2.logln err
      | none => declLoop w rest st2

/-- The loop over `listing` (lines 101-135). -/
def fileLoop (w : Env) (dir : String) : List DirEntry → State → State
  | [], st => st
  | file :: rest, st =>
    if file.IsDir then fileLoop w dir rest st
    else if HasSuffix file.Name "_test.go" then fileLoop w dir rest st
    else if !HasSuffix file.Name ".go" then fileLoop w dir rest st
    else
      let st1 := ((st.emit []).emit ["// FILE:", file.Name]).emit []
      match w.ParseFile (w.Join dir file.Name) with
      | .error err => fileLoop w dir rest (st1.logln err)
      | .ok f => fileLoop w dir rest (declLoop w f.Decls st1)

/-- The writes of lines 89-98. -/
def emitHeader (w : Env) (config : Config) (imports : List String) (Name : String)
    (st : State) : State :=
  let st1 := st.emit ["// Package", Name, "info:", config.Header]
  let st2 := st1.emit ["// AUTO-GENERATED:", w.Now]
  let st3 := st2.emit ["package", Name]
  let st4 := st3.emit []
  let st5 := st4.emit ["import ("]
  let st6 := imports.foldl (fun s pkg => s.emit [w.Quote pkg]) st5
  let st7 := st6.emit [")"]
  st7.emit []

/-- The loop over `config.Dirs` (lines 75-136); `d` is the index of the head. -/
def dirLoop (w : Env) (config : Config) (imports : List String) :
    Nat → List String → State → Result
  | _, [], st => ⟨st, none⟩
  | d, dir :: rest, st =>
    match statCheck w dir with
    | some h => ⟨st, some h⟩
    | none =>
      match w.ReadDir dir with
      | .error _ => ⟨st, some (.fatal "Cannot read specified directory.")⟩
      | .ok listing =>
        if d = 0 then
          match w.ImportDir dir with
          | .error e => ⟨st, some (.fatal e)⟩
          | .ok imported =>
            dirLoop w config imports (d + 1) rest
              (fileLoop w dir listing (emitHeader w config imports imported.Name st))
        else
          dirLoop w config imports (d + 1) rest (fileLoop w dir listing st)

/-- The function `main` (lines 70-143), from the values of the flags `-header`
and `-dirs`. -/
def main (w : Env) (header dirs : String) : Result :=
  match parseConfig header dirs with
  | .error h => ⟨State.init, some h⟩
  | .ok config =>
    match combinedImports w config.Dirs with
    | .error h => ⟨State.init, some h⟩
    | .ok imports =>
      let r := dirLoop w config imports 0 config.Dirs State.init
      match r.halt with
      | some h => ⟨r.st, some h⟩
      | none =>
        match w.Source (Bytes r.st.output) with
        | .error e => ⟨r.st, some (.fatal e)⟩
        | .ok out => ⟨{ r.st with stdout := r.st.stdout ++ [out] }, none⟩

/-! ## Sample environments -/

/-- The identity arrangement of map keys. -/
def RangeOrder.id : RangeOrder := ⟨fun keys => keys, fun _ => List.Perm.refl _⟩

/-- A map that is ranged over backwards. -/
def RangeOrder.rev : RangeOrder := ⟨List.reverse, fun keys => List.reverse_perm keys⟩

/-- The two packages of the scenario of the specification: directory `d1` holds
`hello.go` (package `demo`, importing `fmt`), a test file and a subdirectory,
directory `d2` holds `x.go` (package `other`, importing `os`) and a README.
The formatter stands for one that returns its input: `gofmt` keeps the text of
comment lines, which is all that matters where the sample is used. -/
def demoEnv : Env where
  Stat := fun dir => if dir = "d1" ∨ dir = "d2" then .info true else .errNotExist
  ImportDir := fun dir =>
    if dir = "d1" then .ok ⟨"demo", ["fmt"]⟩
    else if dir = "d2" then .ok ⟨"other", ["os"]⟩
    else .error "no buildable Go source files"
  ReadDir := fun dir =>
    if dir = "d1" then .ok [⟨"hello.go", false⟩, ⟨"hello_test.go", false⟩, ⟨"sub", true⟩]
    else if dir = "d2" then .ok [⟨"README", false⟩, ⟨"x.go", false⟩]
    else .error "open: no such file or directory"
  ParseFile := fun p =>
    if p = "d1/hello.go" then
      .ok ⟨[.GenDecl .IMPORT "import \"fmt\"", .FuncDecl "func Hello() \x7b fmt.Println(\"hi\") \x7d"]⟩
    else if p = "d2/x.go" then
      .ok ⟨[.GenDecl .IMPORT "import \"os\"", .GenDecl .VAR "var X = os.Args"]⟩
    else .error "expected 'package'"
  Join := fun dir name => dir ++ "/" ++ name
  Node := fun d =>
    match d with
    | .GenDecl _ node => (node, none)
    | .FuncDecl node => (node, none)
    | .BadDecl _ => ("", some "unsupported node")
  Source := fun src => .ok src
  Quote := fun s => "\"" ++ s ++ "\""
  Now := "2024-01-01 00:00:00 +0000 UTC"
  range := RangeOrder.id

/-! ## Reference definitions -/

/-- The `Imports` list of a directory, empty when `ImportDir` fails. -/
def importsOf (w : Env) (dir : String) : List String :=
  match w.ImportDir dir with
  | .ok pkg => pkg.Imports
  | .error _ => []

/-- Both checks of `combinedImports` pass for `dir`. -/
def ChecksPass (w : Env) (dir : String) : Prop :=
  w.Stat dir = .info true ∧ ∃ pkg, w.ImportDir dir = .ok pkg

/-- Strictly increasing in the lexicographic order of the characters. -/
def StrictlyIncreasing (l : List String) : Prop :=
  l.Pairwise (fun a b => a.data < b.data)

instance (l : List String) : Decidable (StrictlyIncreasing l) := by
  unfold StrictlyIncreasing; infer_instance

/-- The declarations handed to `format.Node`, in the order of the writes. -/
def nodesOf (ws : List Write) : List Decl :=
  ws.filterMap (fun wr => match wr with
    | .node d _ => some d
    | .line _ => none)

/-- The file names of the `// FILE:` markers, in the order of the writes. -/
def markersOf (ws : List Write) : List String :=
  ws.filterMap (fun wr => match wr with
    | .line [tag, name] => if tag = "// FILE:" then some name else none
    | _ => none)

/-- The entries `fileLoop` does not skip: not a directory, not a test file, a Go file. -/
def Selected (file : DirEntry) : Bool :=
  !file.IsDir && !HasSuffix file.Name "_test.go" && HasSuffix file.Name ".go"

/-- The listing of a directory, empty when `ReadDir` fails. -/
def listingOf (w : Env) (dir : String) : List DirEntry :=
  match w.ReadDir dir with
  | .ok listing => listing
  | .error _ => []

/-- The declarations of the file `name` of `dir`, none when parsing fails. -/
def declsOf (w : Env) (dir name : String) : List Decl :=
  match w.ParseFile (w.Join dir name) with
  | .ok f => f.Decls
  | .error _ => []

/-- The concatenation, over the directories in caller order, over the selected
files of each in listing order, of the non-import declarations of the file in
source order. -/
def expectedDecls (w : Env) (dirs : List String) : List Decl :=
  dirs.flatMap (fun dir =>
    ((listingOf w dir).filter Selected).flatMap (fun file =>
      (declsOf w dir file.Name).filter (fun d => !isImportDecl d)))

/-- Every selected file of `dir` parses. -/
def NoParseError (w : Env) (dir : String) : Prop :=
  ∀ file ∈ listingOf w dir, Selected file = true →
    ∃ f, w.ParseFile (w.Join dir file.Name) = .ok f

/-- No declaration that `declLoop` prints for a selected file of `dir` makes
`format.Node` fail. -/
def NoFormatError (w : Env) (dir : String) : Prop :=
  ∀ file ∈ listingOf w dir, Selected file = true →
    ∀ d ∈ declsOf w dir file.Name, isImportDecl d = false → (w.Node d).2 = none

/-- The directory passes every check of `main` and `combinedImports`: it is a
directory, `ImportDir` succeeds and `ReadDir` succeeds. -/
def DirOk (w : Env) (dir : String) : Prop :=
  ChecksPass w dir ∧ ∃ listing, w.ReadDir dir = .ok listing

/-- The writes made after the header: blank lines, file markers, and
declarations other than import declarations. -/
def isBodyWrite : Write → Bool
  | .line [] => true
  | .line [tag, _] => tag == "// FILE:"
  | .line _ => false
  | .node d _ => !isImportDecl d

/-- The header, the package clause and the import block (lines 89-98). -/
def headerWrites (w : Env) (config : Config) (imports : List String) (Name : String) :
    List Write :=
  [.line ["// Package", Name, "info:", config.Header],
   .line ["// AUTO-GENERATED:", w.Now],
   .line ["package", Name],
   .line [],
   .line ["import ("]] ++
  imports.map (fun pkg => Write.line [w.Quote pkg]) ++
  [.line [")"], .line []]

/-- The environment whose directory listings keep only the entries satisfying `keep`. -/
def filterListing (keep : DirEntry → Bool) (w : Env) : Env :=
  { w with
    ReadDir := fun dir =>
      match w.ReadDir dir with
      | .ok listing => .ok (listing.filter keep)
      | .error e => .error e }

/-- The name of the entry ends in `_test.go`. -/
def isTestFile (file : DirEntry) : Bool :=
  HasSuffix file.Name "_test.go"

/-- The environment with every entry named `..._test.go` removed from the listings. -/
def dropTests (w : Env) : Env :=
  filterListing (fun file => !isTestFile file) w

/-- The environment in which the file at path `p` parses to a file without
declarations. -/
def emptyFileAt (w : Env) (p : String) : Env :=
  { w with ParseFile := fun q => if q = p then .ok ⟨[]⟩ else w.ParseFile q }

/-- Two environments with the same directories (file system), the same library
functions and the same clock; only the map iteration order may differ. -/
def SameInputs (w w' : Env) : Prop :=
  w.Stat = w'.Stat ∧ w.ImportDir = w'.ImportDir ∧ w.ReadDir = w'.ReadDir ∧
  w.ParseFile = w'.ParseFile ∧ w.Join = w'.Join ∧ w.Node = w'.Node ∧
  w.Source = w'.Source ∧ w.Quote = w'.Quote ∧ w.Now = w'.Now

/-- The scenario one day later: only the clock differs. -/
def demoEnvLater : Env :=
  { demoEnv with Now := "2024-01-02 00:00:00 +0000 UTC" }

/-- The scenario with the map ranged over backwards. -/
def demoEnvRev : Env :=
  { demoEnv with range := RangeOrder.rev }

/-- The scenario with a path below the regular file `d1/hello.go`: `os.Stat`
fails with ENOTDIR, which is not a not-exist error. -/
def statErrEnv : Env :=
  { demoEnv with
    Stat := fun dir =>
      if dir = "d1" ∨ dir = "d2" then .info true
      else if dir = "d1/hello.go/x" then .errOther "stat d1/hello.go/x: not a directory"
      else .errNotExist }

/-- The scenario with a file `d1/broken.go` that does not parse, listed before
`hello.go`. -/
def brokenEnv : Env :=
  { demoEnv with
    ReadDir := fun dir =>
      if dir = "d1" then .ok [⟨"broken.go", false⟩, ⟨"hello.go", false⟩]
      else if dir = "d2" then .ok [⟨"x.go", false⟩]
      else .error "open: no such file or directory" }

/-- Two states with the same buffer and the same writes to standard output;
the logs may differ. -/
def SameButLog (a b : State) : Prop :=
  a.output = b.output ∧ a.stdout = b.stdout

/-- A second environment for the scenario: the same import paths, repeated and
in another order, and a map that is ranged over backwards. -/
def demoEnvShuffled : Env :=
  { demoEnv with
    ImportDir := fun dir =>
      if dir = "d1" then .ok ⟨"demo", ["os", "fmt", "os"]⟩
      else if dir = "d2" then .ok ⟨"other", ["fmt"]⟩
      else .error "no buildable Go source files"
    range := RangeOrder.rev }

instance : IsTotal String (fun a b => a.data ≤ b.data) := ⟨fun a b => le_total a.data b.data⟩
instance : IsTrans String (fun a b => a.data ≤ b.data) :=
  ⟨fun _ _ _ h₁ h₂ => le_trans h₁ h₂⟩

/-! ## Lemmas on `combinedImports` -/

theorem mem_mapInsert (all : List String) (imp p : String) :
    p ∈ mapInsert all imp ↔ p ∈ all ∨ p = imp := by
  unfold mapInsert
  split
  · constructor
    · intro h; exact Or.inl h
    · rintro (h | h)
      · exact h
      · subst h; assumption
  · simp

theorem nodup_mapInsert (all : List String) (imp : String) (h : all.Nodup) :
    (mapInsert all imp).Nodup := by
  unfold mapInsert
  split
  · exact h
  · rename_i hn
    rw [List.nodup_append]
    refine ⟨h, List.nodup_singleton _, ?_⟩
    intro a ha hb
    simp at hb
    subst hb
    exact hn ha

theorem mem_foldl_mapInsert (imps : List String) (all : List String) (p : String) :
    p ∈ imps.foldl mapInsert all ↔ p ∈ all ∨ p ∈ imps := by
  induction imps generalizing all with
  | nil => simp
  | cons i is ih =>
    simp only [List.foldl_cons, ih, mem_mapInsert, List.mem_cons]
    tauto

theorem nodup_foldl_mapInsert (imps : List String) (all : List String) (h : all.Nodup) :
    (imps.foldl mapInsert all).Nodup := by
  induction imps generalizing all with
  | nil => simpa using h
  | cons i is ih =>
    simp only [List.foldl_cons]
    exact ih _ (nodup_mapInsert all i h)

theorem statCheck_of_info (w : Env) (dir : String) (h : w.Stat dir = .info true) :
    statCheck w dir = none := by
  simp [statCheck, h]

theorem importsLoop_ok (w : Env) (dirs : List String) (all : List String)
    (hok : ∀ dir ∈ dirs, ChecksPass w dir) (hnd : all.Nodup) :
    ∃ keys, importsLoop w dirs all = .ok keys ∧ keys.Nodup ∧
      ∀ p, p ∈ keys ↔ p ∈ all ∨ ∃ dir ∈ dirs, p ∈ importsOf w dir := by
  induction dirs generalizing all with
  | nil => exact ⟨all, rfl, hnd, by simp⟩
  | cons dir rest ih =>
    obtain ⟨hstat, pkg, hpkg⟩ := hok dir (List.mem_cons_self _ _)
    have hrest : ∀ d ∈ rest, ChecksPass w d := fun d hd => hok d (List.mem_cons_of_mem _ hd)
    obtain ⟨keys, hk, hnd', hmem⟩ :=
      ih (pkg.Imports.foldl mapInsert all) hrest (nodup_foldl_mapInsert _ _ hnd)
    refine ⟨keys, ?_, hnd', ?_⟩
    · simp only [importsLoop, statCheck_of_info w dir hstat, hpkg]
      exact hk
    · intro p
      rw [hmem p, mem_foldl_mapInsert]
      have himp : importsOf w dir = pkg.Imports := by simp [importsOf, hpkg]
      simp only [List.mem_cons, exists_eq_or_imp, himp]
      tauto

theorem sortStrings_perm (l : List String) : (sortStrings l).Perm l :=
  List.perm_insertionSort _ l

theorem sortStrings_strict (l : List String) (h : l.Nodup) :
    StrictlyIncreasing (sortStrings l) := by
  have hs : (sortStrings l).Pairwise (fun a b => a.data ≤ b.data) :=
    List.sorted_insertionSort (fun a b : String => a.data ≤ b.data) l
  have hn : (sortStrings l).Pairwise (fun a b => a ≠ b) :=
    (sortStrings_perm l).nodup_iff.mpr h
  unfold StrictlyIncreasing
  refine (hs.and hn).imp ?_
  rintro a b ⟨hle, hne⟩
  refine lt_of_le_of_ne hle ?_
  intro hd
  exact hne (String.ext hd)

theorem nodup_of_strict (l : List String) (h : StrictlyIncreasing l) : l.Nodup := by
  unfold StrictlyIncreasing at h
  refine h.imp ?_
  intro a b hlt hab
  subst hab
  exact lt_irrefl _ hlt

theorem strict_unique (l₁ l₂ : List String) (h₁ : StrictlyIncreasing l₁)
    (h₂ : StrictlyIncreasing l₂) (hmem : ∀ p, p ∈ l₁ ↔ p ∈ l₂) : l₁ = l₂ := by
  have hp : l₁.Perm l₂ :=
    (List.perm_ext_iff_of_nodup (nodup_of_strict _ h₁) (nodup_of_strict _ h₂)).mpr hmem
  haveI : IsAntisymm String (fun a b => a.data < b.data) :=
    ⟨fun a b hab hba => absurd hba (lt_asymm hab)⟩
  exact List.eq_of_perm_of_sorted hp h₁ h₂

theorem combinedImports_spec (w : Env) (dirs : List String)
    (hok : ∀ dir ∈ dirs, ChecksPass w dir) :
    ∃ results, combinedImports w dirs = .ok results ∧ StrictlyIncreasing results ∧
      ∀ p, p ∈ results ↔ ∃ dir ∈ dirs, p ∈ importsOf w dir := by
  obtain ⟨keys, hk, hnd, hmem⟩ := importsLoop_ok w dirs [] hok List.nodup_nil
  refine ⟨sortStrings (w.range.order keys), ?_, ?_, ?_⟩
  · simp [combinedImports, hk]
  · exact sortStrings_strict _ ((w.range.perm keys).nodup_iff.mpr hnd)
  · intro p
    rw [(sortStrings_perm _).mem_iff, (w.range.perm keys).mem_iff, hmem p]
    simp

/-! ## Lemmas on the loops of `main` -/

theorem nodesOf_append (a b : List Write) : nodesOf (a ++ b) = nodesOf a ++ nodesOf b := by
  simp [nodesOf, List.filterMap_append]

theorem markersOf_append (a b : List Write) :
    markersOf (a ++ b) = markersOf a ++ markersOf b := by
  simp [markersOf, List.filterMap_append]

theorem declLoop_import (w : Env) (d : Decl) (rest : List Decl) (st : State)
    (h : isImportDecl d = true) : declLoop w (d :: rest) st = declLoop w rest st := by
  simp [declLoop, h]

theorem declLoop_print (w : Env) (d : Decl) (rest : List Decl) (st : State)
    (h : isImportDecl d = false) (herr : (w.Node d).2 = none) :
    declLoop w (d :: rest) st =
      declLoop w rest
        (State.emit { st with output := st.output ++ [Write.node d (w.Node d).1] } []) := by
  simp [declLoop, h, herr]

theorem declLoop_fail (w : Env) (d : Decl) (rest : List Decl) (st : State) (err : String)
    (h : isImportDecl d = false) (herr : (w.Node d).2 = some err) :
    declLoop w (d :: rest) st =
      State.logln
        (State.emit { st with output := st.output ++ [Write.node d (w.Node d).1] } []) err := by
  simp [declLoop, h, herr]

theorem fileLoop_skip (w : Env) (dir : String) (file : DirEntry) (rest : List DirEntry)
    (st : State) (h : Selected file = false) :
    fileLoop w dir (file :: rest) st = fileLoop w dir rest st := by
  unfold Selected at h
  by_cases h1 : file.IsDir = true
  · simp [fileLoop, h1]
  · by_cases h2 : HasSuffix file.Name "_test.go" = true
    · simp [fileLoop, h1, h2]
    · have h3 : HasSuffix file.Name ".go" = false := by
        simp only [Bool.not_eq_true] at h1 h2
        simpa [h1, h2] using h
      simp [fileLoop, h1, h2, h3]

theorem selected_iff (file : DirEntry) :
    Selected file = true ↔
      file.IsDir = false ∧ HasSuffix file.Name "_test.go" = false ∧
        HasSuffix file.Name ".go" = true := by
  simp [Selected, and_assoc]

theorem fileLoop_parse_error (w : Env) (dir : String) (file : DirEntry)
    (rest : List DirEntry) (st : State) (err : String) (h : Selected file = true)
    (hp : w.ParseFile (w.Join dir file.Name) = .error err) :
    fileLoop w dir (file :: rest) st =
      fileLoop w dir rest
        (State.logln (((st.emit []).emit ["// FILE:", file.Name]).emit []) err) := by
  obtain ⟨h1, h2, h3⟩ := (selected_iff file).mp h
  simp [fileLoop, h1, h2, h3, hp]

theorem fileLoop_parse_ok (w : Env) (dir : String) (file : DirEntry)
    (rest : List DirEntry) (st : State) (f : File) (h : Selected file = true)
    (hp : w.ParseFile (w.Join dir file.Name) = .ok f) :
    fileLoop w dir (file :: rest) st =
      fileLoop w dir rest
        (declLoop w f.Decls (((st.emit []).emit ["// FILE:", file.Name]).emit [])) := by
  obtain ⟨h1, h2, h3⟩ := (selected_iff file).mp h
  simp [fileLoop, h1, h2, h3, hp]

theorem declLoop_writes (w : Env) (ds : List Decl) (st : State) :
    ∃ app, (declLoop w ds st).output = st.output ++ app ∧
      (declLoop w ds st).stdout = st.stdout ∧
      ∀ wr ∈ app, wr = Write.line [] ∨
        ∃ d ∈ ds, isImportDecl d = false ∧ wr = Write.node d (w.Node d).1 := by
  induction ds generalizing st with
  | nil => exact ⟨[], by simp [declLoop]⟩
  | cons d rest ih =>
    by_cases himp : isImportDecl d = true
    · obtain ⟨app, h1, h2, h3⟩ := ih st
      refine ⟨app, by simpa [declLoop, himp] using h1, by simpa [declLoop, himp] using h2, ?_⟩
      intro wr hwr
      rcases h3 wr hwr with h | ⟨d', hd', hrest⟩
      · exact Or.inl h
      · exact Or.inr ⟨d', List.mem_cons_of_mem _ hd', hrest⟩
    · have himp' : isImportDecl d = false := by simpa using himp
      cases herr : (w.Node d).2 with
      | some err =>
        refine ⟨[Write.node d (w.Node d).1, Write.line []], ?_, ?_, ?_⟩
        · simp [declLoop, himp', herr, State.emit, State.logln]
        · simp [declLoop, himp', herr, State.emit, State.logln]
        · intro wr hwr
          simp only [List.mem_cons, List.mem_singleton, List.not_mem_nil, or_false] at hwr
          rcases hwr with h | h
          · exact Or.inr ⟨d, List.mem_cons_self _ _, himp', h⟩
          · exact Or.inl h
      | none =>
        obtain ⟨app, h1, h2, h3⟩ :=
          ih (State.emit { st with output := st.output ++ [Write.node d (w.Node d).1] } [])
        refine ⟨[Write.node d (w.Node d).1, Write.line []] ++ app, ?_, ?_, ?_⟩
        · simp only [declLoop, himp', herr]
          simpa [State.emit] using h1
        · simp only [declLoop, himp', herr]
          simpa [State.emit] using h2
        · intro wr hwr
          simp only [List.mem_append, List.mem_cons, List.mem_singleton, List.not_mem_nil,
            or_false] at hwr
          rcases hwr with (h | h) | h
          · exact Or.inr ⟨d, List.mem_cons_self _ _, himp', h⟩
          · exact Or.inl h
          · rcases h3 wr h with h | ⟨d', hd', hrest⟩
            · exact Or.inl h
            · exact Or.inr ⟨d', List.mem_cons_of_mem _ hd', hrest⟩

theorem declLoop_nodes (w : Env) (ds : List Decl) (st : State)
    (hfmt : ∀ d ∈ ds, isImportDecl d = false → (w.Node d).2 = none) :
    nodesOf (declLoop w ds st).output =
      nodesOf st.output ++ ds.filter (fun d => !isImportDecl d) ∧
    markersOf (declLoop w ds st).output = markersOf st.output := by
  induction ds generalizing st with
  | nil => simp [declLoop]
  | cons d rest ih =>
    have hrest : ∀ d' ∈ rest, isImportDecl d' = false → (w.Node d').2 = none :=
      fun d' hd' => hfmt d' (List.mem_cons_of_mem _ hd')
    by_cases himp : isImportDecl d = true
    · simpa [declLoop, himp] using ih st hrest
    · have himp' : isImportDecl d = false := by simpa using himp
      have herr := hfmt d (List.mem_cons_self _ _) himp'
      obtain ⟨h1, h2⟩ :=
        ih (State.emit { st with output := st.output ++ [Write.node d (w.Node d).1] } []) hrest
      rw [declLoop_print w d rest st himp' herr]
      constructor
      · rw [h1]
        simp [State.emit, nodesOf_append, nodesOf, himp']
      · rw [h2]
        simp [State.emit, markersOf_append, markersOf]

theorem markersOf_declLoop (w : Env) (ds : List Decl) (st : State) :
    markersOf (declLoop w ds st).output = markersOf st.output := by
  obtain ⟨app, h1, _, h3⟩ := declLoop_writes w ds st
  have happ : markersOf app = [] := by
    unfold markersOf
    rw [List.filterMap_eq_nil_iff]
    intro wr hwr
    rcases h3 wr hwr with h | ⟨d, _, _, h⟩ <;> subst h <;> rfl
  rw [h1, markersOf_append, happ, List.append_nil]

theorem isBodyWrite_of_declLoop (w : Env) (ds : List Decl) (wr : Write)
    (h : wr = Write.line [] ∨
      ∃ d ∈ ds, isImportDecl d = false ∧ wr = Write.node d (w.Node d).1) :
    isBodyWrite wr = true := by
  rcases h with h | ⟨d, _, hd, h⟩ <;> subst h
  · rfl
  · simp [isBodyWrite, hd]

theorem fileLoop_writes (w : Env) (dir : String) (listing : List DirEntry) (st : State) :
    ∃ app, (fileLoop w dir listing st).output = st.output ++ app ∧
      (fileLoop w dir listing st).stdout = st.stdout ∧
      ∀ wr ∈ app, isBodyWrite wr = true := by
  induction listing generalizing st with
  | nil => exact ⟨[], by simp [fileLoop]⟩
  | cons file rest ih =>
    by_cases hsel : Selected file = true
    · cases hp : w.ParseFile (w.Join dir file.Name) with
      | error err =>
        rw [fileLoop_parse_error w dir file rest st err hsel hp]
        obtain ⟨app, h1, h2, h3⟩ :=
          ih (State.logln (((st.emit []).emit ["// FILE:", file.Name]).emit []) err)
        refine ⟨[Write.line [], Write.line ["// FILE:", file.Name], Write.line []] ++ app,
          ?_, ?_, ?_⟩
        · rw [h1]; simp [State.emit, State.logln]
        · rw [h2]; simp [State.emit, State.logln]
        · intro wr hwr
          simp only [List.mem_append, List.mem_cons, List.mem_singleton, List.not_mem_nil,
            or_false] at hwr
          rcases hwr with (h | h | h) | h
          · subst h; rfl
          · subst h; simp [isBodyWrite]
          · subst h; rfl
          · exact h3 wr h
      | ok f =>
        rw [fileLoop_parse_ok w dir file rest st f hsel hp]
        obtain ⟨app, h1, h2, h3⟩ :=
          ih (declLoop w f.Decls (((st.emit []).emit ["// FILE:", file.Name]).emit []))
        obtain ⟨app', g1, g2, g3⟩ :=
          declLoop_writes w f.Decls (((st.emit []).emit ["// FILE:", file.Name]).emit [])
        refine ⟨[Write.line [], Write.line ["// FILE:", file.Name], Write.line []] ++ app'
          ++ app, ?_, ?_, ?_⟩
        · rw [h1, g1]; simp [State.emit]
        · rw [h2, g2]; simp [State.emit]
        · intro wr hwr
          simp only [List.mem_append, List.mem_cons, List.mem_singleton, List.not_mem_nil,
            or_false] at hwr
          rcases hwr with ((h | h | h) | h) | h
          · subst h; rfl
          · subst h; simp [isBodyWrite]
          · subst h; rfl
          · exact isBodyWrite_of_declLoop w f.Decls wr (g3 wr h)
          · exact h3 wr h
    · have hsel' : Selected file = false := by simpa using hsel
      rw [fileLoop_skip w dir file rest st hsel']
      exact ih st

theorem fileLoop_markers (w : Env) (dir : String) (listing : List DirEntry) (st : State) :
    markersOf (fileLoop w dir listing st).output =
      markersOf st.output ++ (listing.filter Selected).map DirEntry.Name := by
  induction listing generalizing st with
  | nil => simp [fileLoop]
  | cons file rest ih =>
    by_cases hsel : Selected file = true
    · have hmark : ∀ s : State,
          markersOf (((s.emit []).emit ["// FILE:", file.Name]).emit []).output =
            markersOf s.output ++ [file.Name] := by
        intro s
        simp [State.emit, markersOf_append, markersOf]
      cases hp : w.ParseFile (w.Join dir file.Name) with
      | error err =>
        rw [fileLoop_parse_error w dir file rest st err hsel hp, ih]
        have := hmark st
        simp only [State.logln, List.filter_cons, hsel, if_true, List.map_cons]
        rw [this]
        simp
      | ok f =>
        rw [fileLoop_parse_ok w dir file rest st f hsel hp, ih, markersOf_declLoop, hmark]
        simp [List.filter_cons, hsel]
    · have hsel' : Selected file = false := by simpa using hsel
      rw [fileLoop_skip w dir file rest st hsel', ih]
      simp [List.filter_cons, hsel']

theorem fileLoop_filter (w : Env) (dir : String) (keep : DirEntry → Bool)
    (hkeep : ∀ file, Selected file = true → keep file = true)
    (listing : List DirEntry) (st : State) :
    fileLoop w dir (listing.filter keep) st = fileLoop w dir listing st := by
  induction listing generalizing st with
  | nil => rfl
  | cons file rest ih =>
    by_cases hk : keep file = true
    · rw [List.filter_cons_of_pos hk]
      by_cases hsel : Selected file = true
      · cases hp : w.ParseFile (w.Join dir file.Name) with
        | error err =>
          rw [fileLoop_parse_error w dir file _ st err hsel hp,
            fileLoop_parse_error w dir file _ st err hsel hp, ih]
        | ok f =>
          rw [fileLoop_parse_ok w dir file _ st f hsel hp,
            fileLoop_parse_ok w dir file _ st f hsel hp, ih]
      · have hsel' : Selected file = false := by simpa using hsel
        rw [fileLoop_skip w dir file _ st hsel', fileLoop_skip w dir file _ st hsel', ih]
    · have hsel' : Selected file = false := by
        by_contra hc
        exact hk (hkeep file (by simpa using hc))
      rw [List.filter_cons_of_neg hk, fileLoop_skip w dir file rest st hsel', ih]

theorem fileLoop_nodes (w : Env) (dir : String) (listing : List DirEntry) (st : State)
    (hparse : ∀ file ∈ listing, Selected file = true →
      ∃ f, w.ParseFile (w.Join dir file.Name) = .ok f)
    (hfmt : ∀ file ∈ listing, Selected file = true →
      ∀ d ∈ declsOf w dir file.Name, isImportDecl d = false → (w.Node d).2 = none) :
    nodesOf (fileLoop w dir listing st).output =
      nodesOf st.output ++ (listing.filter Selected).flatMap (fun file =>
        (declsOf w dir file.Name).filter (fun d => !isImportDecl d)) := by
  induction listing generalizing st with
  | nil => simp [fileLoop]
  | cons file rest ih =>
    have hparse' : ∀ file ∈ rest, Selected file = true →
        ∃ f, w.ParseFile (w.Join dir file.Name) = .ok f :=
      fun x hx => hparse x (List.mem_cons_of_mem _ hx)
    have hfmt' : ∀ file ∈ rest, Selected file = true →
        ∀ d ∈ declsOf w dir file.Name, isImportDecl d = false → (w.Node d).2 = none :=
      fun x hx => hfmt x (List.mem_cons_of_mem _ hx)
    by_cases hsel : Selected file = true
    · obtain ⟨f, hp⟩ := hparse file (List.mem_cons_self _ _) hsel
      have hdecls : declsOf w dir file.Name = f.Decls := by simp [declsOf, hp]
      have hf := hfmt file (List.mem_cons_self _ _) hsel
      rw [hdecls] at hf
      rw [fileLoop_parse_ok w dir file rest st f hsel hp, ih _ hparse' hfmt',
        (declLoop_nodes w f.Decls _ hf).1]
      simp [List.filter_cons, hsel, hdecls, State.emit, nodesOf_append, nodesOf]
    · have hsel' : Selected file = false := by simpa using hsel
      rw [fileLoop_skip w dir file rest st hsel', ih _ hparse' hfmt']
      simp [List.filter_cons, hsel']

theorem foldl_emit (w : Env) (imports : List String) (st : State) :
    imports.foldl (fun s pkg => s.emit [w.Quote pkg]) st =
      { st with output := st.output ++ imports.map (fun pkg => Write.line [w.Quote pkg]) } := by
  induction imports generalizing st with
  | nil => simp
  | cons imp rest ih =>
    rw [List.foldl_cons, ih]
    simp [State.emit]

theorem emitHeader_eq (w : Env) (config : Config) (imports : List String) (Name : String)
    (st : State) :
    emitHeader w config imports Name st =
      { st with output := st.output ++ headerWrites w config imports Name } := by
  unfold emitHeader
  simp only []
  rw [foldl_emit]
  simp [headerWrites, State.emit]

theorem dirLoop_succ (w : Env) (config : Config) (imports : List String) (d : Nat)
    (dir : String) (rest : List String) (st : State) (listing : List DirEntry)
    (hstat : statCheck w dir = none) (hread : w.ReadDir dir = .ok listing) :
    dirLoop w config imports (d + 1) (dir :: rest) st =
      dirLoop w config imports (d + 2) rest (fileLoop w dir listing st) := by
  simp [dirLoop, hstat, hread]

theorem dirLoop_zero (w : Env) (config : Config) (imports : List String)
    (dir : String) (rest : List String) (st : State) (listing : List DirEntry)
    (imported : Package)
    (hstat : statCheck w dir = none) (hread : w.ReadDir dir = .ok listing)
    (hpkg : w.ImportDir dir = .ok imported) :
    dirLoop w config imports 0 (dir :: rest) st =
      dirLoop w config imports 1 rest
        (fileLoop w dir listing (emitHeader w config imports imported.Name st)) := by
  simp [dirLoop, hstat, hread, hpkg]

theorem dirLoop_succ_writes (w : Env) (config : Config) (imports : List String) (d : Nat)
    (dirs : List String) (st : State) :
    ∃ body, (dirLoop w config imports (d + 1) dirs st).st.output = st.output ++ body ∧
      (dirLoop w config imports (d + 1) dirs st).st.stdout = st.stdout ∧
      ∀ wr ∈ body, isBodyWrite wr = true := by
  induction dirs generalizing d st with
  | nil => exact ⟨[], by simp [dirLoop]⟩
  | cons dir rest ih =>
    cases hstat : statCheck w dir with
    | some h => exact ⟨[], by simp [dirLoop, hstat]⟩
    | none =>
      cases hread : w.ReadDir dir with
      | error e => exact ⟨[], by simp [dirLoop, hstat, hread]⟩
      | ok listing =>
        rw [dirLoop_succ w config imports d dir rest st listing hstat hread]
        obtain ⟨body, h1, h2, h3⟩ := ih (d + 1) (fileLoop w dir listing st)
        obtain ⟨app, g1, g2, g3⟩ := fileLoop_writes w dir listing st
        refine ⟨app ++ body, ?_, ?_, ?_⟩
        · rw [h1, g1, List.append_assoc]
        · rw [h2, g2]
        · intro wr hwr
          rcases List.mem_append.mp hwr with h | h
          · exact g3 wr h
          · exact h3 wr h

theorem dirLoop_stdout (w : Env) (config : Config) (imports : List String) (d : Nat)
    (dirs : List String) (st : State) :
    (dirLoop w config imports d dirs st).st.stdout = st.stdout := by
  cases d with
  | succ d => exact (dirLoop_succ_writes w config imports d dirs st).choose_spec.2.1
  | zero =>
    cases dirs with
    | nil => simp [dirLoop]
    | cons dir rest =>
      cases hstat : statCheck w dir with
      | some h => simp [dirLoop, hstat]
      | none =>
        cases hread : w.ReadDir dir with
        | error e => simp [dirLoop, hstat, hread]
        | ok listing =>
          cases hpkg : w.ImportDir dir with
          | error e => simp [dirLoop, hstat, hread, hpkg]
          | ok imported =>
            rw [dirLoop_zero w config imports dir rest st listing imported hstat hread hpkg]
            obtain ⟨_, _, h2, _⟩ := dirLoop_succ_writes w config imports 0 rest
              (fileLoop w dir listing (emitHeader w config imports imported.Name st))
            obtain ⟨_, _, g2, _⟩ := fileLoop_writes w dir listing
              (emitHeader w config imports imported.Name st)
            rw [h2, g2, emitHeader_eq]

theorem listingOf_eq (w : Env) (dir : String) (listing : List DirEntry)
    (h : w.ReadDir dir = .ok listing) : listingOf w dir = listing := by
  simp [listingOf, h]

theorem dirLoop_succ_nodes (w : Env) (config : Config) (imports : List String) (d : Nat)
    (dirs : List String) (st : State)
    (hok : ∀ dir ∈ dirs, DirOk w dir)
    (hparse : ∀ dir ∈ dirs, NoParseError w dir)
    (hfmt : ∀ dir ∈ dirs, NoFormatError w dir) :
    (dirLoop w config imports (d + 1) dirs st).halt = none ∧
    nodesOf (dirLoop w config imports (d + 1) dirs st).st.output =
      nodesOf st.output ++ expectedDecls w dirs := by
  induction dirs generalizing d st with
  | nil => simp [dirLoop, expectedDecls]
  | cons dir rest ih =>
    obtain ⟨⟨hstat, _⟩, listing, hread⟩ := hok dir (List.mem_cons_self _ _)
    have hl := listingOf_eq w dir listing hread
    have hp := hparse dir (List.mem_cons_self _ _)
    have hf := hfmt dir (List.mem_cons_self _ _)
    unfold NoParseError at hp
    unfold NoFormatError at hf
    rw [hl] at hp hf
    rw [dirLoop_succ w config imports d dir rest st listing (statCheck_of_info w dir hstat) hread]
    obtain ⟨h1, h2⟩ := ih (d + 1) (fileLoop w dir listing st)
      (fun x hx => hok x (List.mem_cons_of_mem _ hx))
      (fun x hx => hparse x (List.mem_cons_of_mem _ hx))
      (fun x hx => hfmt x (List.mem_cons_of_mem _ hx))
    refine ⟨h1, ?_⟩
    rw [h2, fileLoop_nodes w dir listing st hp hf]
    simp [expectedDecls, hl]

theorem nodesOf_headerWrites (w : Env) (config : Config) (imports : List String)
    (Name : String) : nodesOf (headerWrites w config imports Name) = [] := by
  unfold nodesOf
  rw [List.filterMap_eq_nil_iff]
  intro wr hwr
  simp only [headerWrites, List.mem_append, List.mem_cons, List.mem_singleton, List.mem_map,
    List.not_mem_nil, or_false] at hwr
  rcases hwr with ((h | h | h | h | h) | ⟨p, _, h⟩) | (h | h) <;> subst h <;> rfl

theorem dirLoop_zero_nodes (w : Env) (config : Config) (imports : List String)
    (dirs : List String) (st : State)
    (hok : ∀ dir ∈ dirs, DirOk w dir)
    (hparse : ∀ dir ∈ dirs, NoParseError w dir)
    (hfmt : ∀ dir ∈ dirs, NoFormatError w dir) :
    (dirLoop w config imports 0 dirs st).halt = none ∧
    nodesOf (dirLoop w config imports 0 dirs st).st.output =
      nodesOf st.output ++ expectedDecls w dirs := by
  cases dirs with
  | nil => simp [dirLoop, expectedDecls]
  | cons dir rest =>
    obtain ⟨⟨hstat, imported, hpkg⟩, listing, hread⟩ := hok dir (List.mem_cons_self _ _)
    have hl := listingOf_eq w dir listing hread
    have hp := hparse dir (List.mem_cons_self _ _)
    have hf := hfmt dir (List.mem_cons_self _ _)
    unfold NoParseError at hp
    unfold NoFormatError at hf
    rw [hl] at hp hf
    rw [dirLoop_zero w config imports dir rest st listing imported
      (statCheck_of_info w dir hstat) hread hpkg]
    obtain ⟨h1, h2⟩ := dirLoop_succ_nodes w config imports 0 rest
      (fileLoop w dir listing (emitHeader w config imports imported.Name st))
      (fun x hx => hok x (List.mem_cons_of_mem _ hx))
      (fun x hx => hparse x (List.mem_cons_of_mem _ hx))
      (fun x hx => hfmt x (List.mem_cons_of_mem _ hx))
    refine ⟨h1, ?_⟩
    rw [h2, fileLoop_nodes w dir listing _ hp hf, emitHeader_eq]
    simp [expectedDecls, hl, nodesOf_append, nodesOf_headerWrites]

theorem main_eq_of_config (w : Env) (header dirs : String) (config : Config)
    (imports : List String) (hcfg : parseConfig header dirs = .ok config)
    (himp : combinedImports w config.Dirs = .ok imports) :
    (main w header dirs).st.output =
        (dirLoop w config imports 0 config.Dirs State.init).st.output ∧
      ((dirLoop w config imports 0 config.Dirs State.init).halt = none →
        ∀ h, (main w header dirs).halt = some h →
          ∃ e, w.Source (Bytes (main w header dirs).st.output) = .error e ∧
            h = Halt.fatal e) := by
  simp only [main, hcfg, himp]
  cases hh : (dirLoop w config imports 0 config.Dirs State.init).halt with
  | some h => simp
  | none =>
    cases hs : w.Source (Bytes (dirLoop w config imports 0 config.Dirs State.init).st.output) with
    | error e => simp [hs]
    | ok out => simp

theorem importsLoop_head (w : Env) (dir : String) (rest all keys : List String)
    (h : importsLoop w (dir :: rest) all = .ok keys) :
    statCheck w dir = none ∧ ∃ pkg, w.ImportDir dir = .ok pkg := by
  cases hstat : statCheck w dir with
  | some hlt => simp [importsLoop, hstat] at h
  | none =>
    cases hpkg : w.ImportDir dir with
    | error e => simp [importsLoop, hstat, hpkg] at h
    | ok pkg => exact ⟨rfl, pkg, rfl⟩

theorem combinedImports_head (w : Env) (dir : String) (rest imports : List String)
    (h : combinedImports w (dir :: rest) = .ok imports) :
    statCheck w dir = none ∧ ∃ pkg, w.ImportDir dir = .ok pkg := by
  unfold combinedImports at h
  cases hl : importsLoop w (dir :: rest) [] with
  | error e => simp [hl] at h
  | ok keys => exact importsLoop_head w dir rest [] keys hl

theorem dirLoop_zero_writes (w : Env) (config : Config) (imports : List String)
    (dirs : List String) (st : State) :
    (dirLoop w config imports 0 dirs st).st.output = st.output ∨
    ∃ Name body, (dirLoop w config imports 0 dirs st).st.output =
        st.output ++ headerWrites w config imports Name ++ body ∧
      ∀ wr ∈ body, isBodyWrite wr = true := by
  cases dirs with
  | nil => exact Or.inl (by simp [dirLoop])
  | cons dir rest =>
    cases hstat : statCheck w dir with
    | some h => exact Or.inl (by simp [dirLoop, hstat])
    | none =>
      cases hread : w.ReadDir dir with
      | error e => exact Or.inl (by simp [dirLoop, hstat, hread])
      | ok listing =>
        cases hpkg : w.ImportDir dir with
        | error e => exact Or.inl (by simp [dirLoop, hstat, hread, hpkg])
        | ok imported =>
          right
          rw [dirLoop_zero w config imports dir rest st listing imported hstat hread hpkg]
          obtain ⟨body, h1, _, h3⟩ := dirLoop_succ_writes w config imports 0 rest
            (fileLoop w dir listing (emitHeader w config imports imported.Name st))
          obtain ⟨app, g1, _, g3⟩ := fileLoop_writes w dir listing
            (emitHeader w config imports imported.Name st)
          refine ⟨imported.Name, app ++ body, ?_, ?_⟩
          · rw [h1, g1, emitHeader_eq]
            simp [List.append_assoc]
          · intro wr hwr
            rcases List.mem_append.mp hwr with h | h
            · exact g3 wr h
            · exact h3 wr h

theorem main_output_cases (w : Env) (header dirs : String) :
    (main w header dirs).st.output = [] ∨
    ∃ config imports Name body, (main w header dirs).st.output =
        headerWrites w config imports Name ++ body ∧
      ∀ wr ∈ body, isBodyWrite wr = true := by
  cases hcfg : parseConfig header dirs with
  | error h => exact Or.inl (by simp [main, hcfg, State.init])
  | ok config =>
    cases himp : combinedImports w config.Dirs with
    | error h => exact Or.inl (by simp [main, hcfg, himp, State.init])
    | ok imports =>
      rw [(main_eq_of_config w header dirs config imports hcfg himp).1]
      rcases dirLoop_zero_writes w config imports config.Dirs State.init with h | h
      · exact Or.inl (by rw [h]; rfl)
      · obtain ⟨Name, body, h1, h2⟩ := h
        exact Or.inr ⟨config, imports, Name, body, by rw [h1]; simp [State.init], h2⟩

theorem not_import_of_mem_nodesOf (ws : List Write) (hws : ∀ wr ∈ ws, isBodyWrite wr = true)
    (d : Decl) (hd : d ∈ nodesOf ws) : isImportDecl d = false := by
  unfold nodesOf at hd
  rw [List.mem_filterMap] at hd
  obtain ⟨wr, hwr, heq⟩ := hd
  cases wr with
  | line args => simp at heq
  | node d' text =>
    simp only [Option.some.injEq] at heq
    subst heq
    have := hws _ hwr
    simpa [isBodyWrite] using this

theorem main_stdout_init (w : Env) (config : Config) (imports : List String) :
    (dirLoop w config imports 0 config.Dirs State.init).st.stdout = [] := by
  rw [dirLoop_stdout]; rfl

theorem splitChars_ne_nil (sep : Char) (cs : List Char) : splitChars sep cs ≠ [] := by
  cases cs with
  | nil => simp [splitChars]
  | cons c cs =>
    unfold splitChars
    split
    · simp
    · split <;> simp

theorem parseConfig_dirs_ne_nil (header dirs : String) (config : Config)
    (h : parseConfig header dirs = .ok config) : config.Dirs ≠ [] := by
  unfold parseConfig at h
  split at h
  · simp at h
  · simp only [Except.ok.injEq] at h
    subst h
    simp [Split, splitChars_ne_nil]

theorem main_stdout_cases (w : Env) (header dirs : String) :
    ((main w header dirs).halt = none ∧
      ∃ out, w.Source (Bytes (main w header dirs).st.output) = .ok out ∧
        (main w header dirs).st.stdout = [out]) ∨
    ((∃ h, (main w header dirs).halt = some h) ∧ (main w header dirs).st.stdout = []) := by
  cases hcfg : parseConfig header dirs with
  | error h => exact Or.inr (by simp [main, hcfg, State.init])
  | ok config =>
    cases himp : combinedImports w config.Dirs with
    | error h => exact Or.inr (by simp [main, hcfg, himp, State.init])
    | ok imports =>
      have hstd := main_stdout_init w config imports
      cases hh : (dirLoop w config imports 0 config.Dirs State.init).halt with
      | some h => exact Or.inr (by simp [main, hcfg, himp, hh, hstd])
      | none =>
        cases hs : w.Source
            (Bytes (dirLoop w config imports 0 config.Dirs State.init).st.output) with
        | error e => exact Or.inr (by simp [main, hcfg, himp, hh, hs, hstd])
        | ok out => exact Or.inl (by simp [main, hcfg, himp, hh, hs, hstd])

/-! ## Dependence on the environment -/

theorem declLoop_congr (w w' : Env) (hN : w.Node = w'.Node) (ds : List Decl) (st : State) :
    declLoop w ds st = declLoop w' ds st := by
  induction ds generalizing st with
  | nil => rfl
  | cons d rest ih => simp [declLoop, hN, ih]

theorem fileLoop_congr (w w' : Env) (hP : w.ParseFile = w'.ParseFile) (hJ : w.Join = w'.Join)
    (hN : w.Node = w'.Node) (dir : String) (listing : List DirEntry) (st : State) :
    fileLoop w dir listing st = fileLoop w' dir listing st := by
  induction listing generalizing st with
  | nil => rfl
  | cons file rest ih =>
    have hd : declLoop w = declLoop w' := by
      funext ds s
      exact declLoop_congr w w' hN ds s
    simp only [fileLoop, hP, hJ, ih, hd]

theorem statCheck_congr (w w' : Env) (hS : w.Stat = w'.Stat) (dir : String) :
    statCheck w dir = statCheck w' dir := by
  simp [statCheck, hS]

theorem importsLoop_congr (w w' : Env) (hS : w.Stat = w'.Stat)
    (hI : w.ImportDir = w'.ImportDir) (dirs all : List String) :
    importsLoop w dirs all = importsLoop w' dirs all := by
  induction dirs generalizing all with
  | nil => rfl
  | cons dir rest ih => simp [importsLoop, statCheck_congr w w' hS, hI, ih]

theorem emitHeader_congr (w w' : Env) (hQ : w.Quote = w'.Quote) (hT : w.Now = w'.Now)
    (config : Config) (imports : List String) (Name : String) (st : State) :
    emitHeader w config imports Name st = emitHeader w' config imports Name st := by
  simp [emitHeader, hQ, hT]

theorem sortStrings_eq_of_perm (l₁ l₂ : List String) (h : l₁.Perm l₂) :
    sortStrings l₁ = sortStrings l₂ := by
  haveI : IsAntisymm String (fun a b => a.data ≤ b.data) :=
    ⟨fun a b hab hba => String.ext (le_antisymm hab hba)⟩
  refine List.eq_of_perm_of_sorted (r := fun a b : String => a.data ≤ b.data) ?_ ?_ ?_
  · exact (sortStrings_perm l₁).trans (h.trans (sortStrings_perm l₂).symm)
  · exact List.sorted_insertionSort (fun a b : String => a.data ≤ b.data) l₁
  · exact List.sorted_insertionSort (fun a b : String => a.data ≤ b.data) l₂

theorem combinedImports_congr (w w' : Env) (hS : w.Stat = w'.Stat)
    (hI : w.ImportDir = w'.ImportDir) (dirs : List String) :
    combinedImports w dirs = combinedImports w' dirs := by
  unfold combinedImports
  rw [importsLoop_congr w w' hS hI]
  cases importsLoop w' dirs [] with
  | error h => rfl
  | ok keys =>
    simp only
    rw [sortStrings_eq_of_perm _ _ ((w.range.perm keys).trans (w'.range.perm keys).symm)]

theorem dirLoop_congr (w w' : Env) (hS : w.Stat = w'.Stat) (hI : w.ImportDir = w'.ImportDir)
    (hP : w.ParseFile = w'.ParseFile) (hJ : w.Join = w'.Join) (hN : w.Node = w'.Node)
    (hQ : w.Quote = w'.Quote) (hT : w.Now = w'.Now)
    (keep : DirEntry → Bool) (hkeep : ∀ file, Selected file = true → keep file = true)
    (hR : ∀ dir, w'.ReadDir dir =
      match w.ReadDir dir with
      | .ok listing => .ok (listing.filter keep)
      | .error e => .error e)
    (config : Config) (imports : List String) (d : Nat) (dirs : List String) (st : State) :
    dirLoop w' config imports d dirs st = dirLoop w config imports d dirs st := by
  induction dirs generalizing d st with
  | nil => rfl
  | cons dir rest ih =>
    simp only [dirLoop, ← statCheck_congr w w' hS, hR dir, ← hI]
    cases statCheck w dir with
    | some h => rfl
    | none =>
      cases w.ReadDir dir with
      | error e => rfl
      | ok listing =>
        simp only [← fileLoop_congr w w' hP hJ hN, fileLoop_filter w dir keep hkeep,
          ← emitHeader_congr w w' hQ hT, ih]

theorem main_congr (w w' : Env) (hS : w.Stat = w'.Stat) (hI : w.ImportDir = w'.ImportDir)
    (hP : w.ParseFile = w'.ParseFile) (hJ : w.Join = w'.Join) (hN : w.Node = w'.Node)
    (hF : w.Source = w'.Source) (hQ : w.Quote = w'.Quote) (hT : w.Now = w'.Now)
    (keep : DirEntry → Bool) (hkeep : ∀ file, Selected file = true → keep file = true)
    (hR : ∀ dir, w'.ReadDir dir =
      match w.ReadDir dir with
      | .ok listing => .ok (listing.filter keep)
      | .error e => .error e)
    (header dirs : String) :
    main w' header dirs = main w header dirs := by
  unfold main
  cases parseConfig header dirs with
  | error h => rfl
  | ok config =>
    simp only [← combinedImports_congr w w' hS hI, ← hF]
    cases combinedImports w config.Dirs with
    | error h => rfl
    | ok imports =>
      simp only [dirLoop_congr w w' hS hI hP hJ hN hQ hT keep hkeep hR]

/-! ## Parse failures -/

theorem declLoop_sameButLog (w : Env) (ds : List Decl) (st st' : State)
    (h : SameButLog st st') : SameButLog (declLoop w ds st) (declLoop w ds st') := by
  induction ds generalizing st st' with
  | nil => exact h
  | cons d rest ih =>
    obtain ⟨ho, hs⟩ := h
    by_cases himp : isImportDecl d = true
    · rw [declLoop_import w d rest st himp, declLoop_import w d rest st' himp]
      exact ih st st' ⟨ho, hs⟩
    · have himp' : isImportDecl d = false := by simpa using himp
      cases herr : (w.Node d).2 with
      | some err =>
        rw [declLoop_fail w d rest st err himp' herr, declLoop_fail w d rest st' err himp' herr]
        exact ⟨by simp [State.logln, State.emit, ho], by simp [State.logln, State.emit, hs]⟩
      | none =>
        rw [declLoop_print w d rest st himp' herr, declLoop_print w d rest st' himp' herr]
        exact ih _ _ ⟨by simp [State.emit, ho], by simp [State.emit, hs]⟩

theorem marker_sameButLog (st st' : State) (name : String) (h : SameButLog st st') :
    SameButLog (((st.emit []).emit ["// FILE:", name]).emit [])
      (((st'.emit []).emit ["// FILE:", name]).emit []) := by
  obtain ⟨ho, hs⟩ := h
  exact ⟨by simp [State.emit, ho], by simp [State.emit, hs]⟩

theorem fileLoop_patch (w : Env) (p err : String) (hp : w.ParseFile p = .error err)
    (dir : String) (listing : List DirEntry) (st st' : State) (h : SameButLog st st') :
    SameButLog (fileLoop w dir listing st) (fileLoop (emptyFileAt w p) dir listing st') := by
  induction listing generalizing st st' with
  | nil => exact h
  | cons file rest ih =>
    by_cases hsel : Selected file = true
    · have hm := marker_sameButLog st st' file.Name h
      by_cases hq : w.Join dir file.Name = p
      · have hp1 : w.ParseFile (w.Join dir file.Name) = .error err := by rw [hq, hp]
        have hp2 : (emptyFileAt w p).ParseFile ((emptyFileAt w p).Join dir file.Name) =
            .ok ⟨[]⟩ := by
          simp [emptyFileAt, hq]
        rw [fileLoop_parse_error w dir file rest st err hsel hp1,
          fileLoop_parse_ok (emptyFileAt w p) dir file rest st' ⟨[]⟩ hsel hp2]
        exact ih _ _ ⟨hm.1, hm.2⟩
      · have hsame : (emptyFileAt w p).ParseFile ((emptyFileAt w p).Join dir file.Name) =
            w.ParseFile (w.Join dir file.Name) := by
          simp [emptyFileAt, hq]
        cases hres : w.ParseFile (w.Join dir file.Name) with
        | error e =>
          rw [fileLoop_parse_error w dir file rest st e hsel hres,
            fileLoop_parse_error (emptyFileAt w p) dir file rest st' e hsel (hsame.trans hres)]
          exact ih _ _ ⟨hm.1, hm.2⟩
        | ok f =>
          rw [fileLoop_parse_ok w dir file rest st f hsel hres,
            fileLoop_parse_ok (emptyFileAt w p) dir file rest st' f hsel (hsame.trans hres),
            ← declLoop_congr w (emptyFileAt w p) rfl]
          exact ih _ _ (declLoop_sameButLog w f.Decls _ _ hm)
    · have hsel' : Selected file = false := by simpa using hsel
      rw [fileLoop_skip w dir file rest st hsel',
        fileLoop_skip (emptyFileAt w p) dir file rest st' hsel']
      exact ih st st' h

theorem dirLoop_patch (w : Env) (p err : String) (hp : w.ParseFile p = .error err)
    (config : Config) (imports : List String) (d : Nat) (dirs : List String)
    (st st' : State) (h : SameButLog st st') :
    SameButLog (dirLoop w config imports d dirs st).st
        (dirLoop (emptyFileAt w p) config imports d dirs st').st ∧
      (dirLoop w config imports d dirs st).halt =
        (dirLoop (emptyFileAt w p) config imports d dirs st').halt := by
  induction dirs generalizing d st st' with
  | nil => exact ⟨h, rfl⟩
  | cons dir rest ih =>
    have hS : statCheck (emptyFileAt w p) dir = statCheck w dir := rfl
    have hR : (emptyFileAt w p).ReadDir dir = w.ReadDir dir := rfl
    have hI : (emptyFileAt w p).ImportDir dir = w.ImportDir dir := rfl
    simp only [dirLoop, hS, hR, hI]
    cases statCheck w dir with
    | some hlt => exact ⟨h, rfl⟩
    | none =>
      cases w.ReadDir dir with
      | error e => exact ⟨h, rfl⟩
      | ok listing =>
        by_cases hd : d = 0
        · simp only [hd, if_true]
          cases w.ImportDir dir with
          | error e => exact ⟨h, rfl⟩
          | ok imported =>
            apply ih
            apply fileLoop_patch w p err hp
            rw [← emitHeader_congr w (emptyFileAt w p) rfl rfl, emitHeader_eq, emitHeader_eq]
            exact ⟨by simp [h.1], h.2⟩
        · simp only [hd, if_false]
          apply ih
          exact fileLoop_patch w p err hp dir listing st st' h

theorem main_patch (w : Env) (p err : String) (hp : w.ParseFile p = .error err)
    (header dirs : String) :
    SameButLog (main w header dirs).st (main (emptyFileAt w p) header dirs).st ∧
      (main w header dirs).halt = (main (emptyFileAt w p) header dirs).halt := by
  have hC : ∀ ds, combinedImports (emptyFileAt w p) ds = combinedImports w ds :=
    fun ds => combinedImports_congr (emptyFileAt w p) w rfl rfl ds
  have hF : (emptyFileAt w p).Source = w.Source := rfl
  unfold main
  cases parseConfig header dirs with
  | error h => exact ⟨⟨rfl, rfl⟩, rfl⟩
  | ok config =>
    simp only [hC, hF]
    cases combinedImports w config.Dirs with
    | error h => exact ⟨⟨rfl, rfl⟩, rfl⟩
    | ok imports =>
      obtain ⟨⟨ho, hs⟩, hh⟩ := dirLoop_patch w p err hp config imports 0 config.Dirs
        State.init State.init ⟨rfl, rfl⟩
      simp only [← hh, ← ho, ← hs]
      cases (dirLoop w config imports 0 config.Dirs State.init).halt with
      | some h => exact ⟨⟨ho, hs⟩, rfl⟩
      | none =>
        simp only
        cases w.Source (Bytes (dirLoop w config imports 0 config.Dirs State.init).st.output) with
        | error e => exact ⟨⟨ho, hs⟩, rfl⟩
        | ok out => exact ⟨⟨rfl, rfl⟩, rfl⟩

theorem dirLoop_halt_none (w : Env) (config : Config) (imports : List String) (d : Nat)
    (dirs : List String) (st : State) (hok : ∀ dir ∈ dirs, DirOk w dir) :
    (dirLoop w config imports d dirs st).halt = none := by
  induction dirs generalizing d st with
  | nil => rfl
  | cons dir rest ih =>
    obtain ⟨⟨hstat, imported, hpkg⟩, listing, hread⟩ := hok dir (List.mem_cons_self _ _)
    have hrest : ∀ x ∈ rest, DirOk w x := fun x hx => hok x (List.mem_cons_of_mem _ hx)
    cases d with
    | zero =>
      rw [dirLoop_zero w config imports dir rest st listing imported
        (statCheck_of_info w dir hstat) hread hpkg]
      exact ih _ _ hrest
    | succ d =>
      rw [dirLoop_succ w config imports d dir rest st listing
        (statCheck_of_info w dir hstat) hread]
      exact ih _ _ hrest

/-! ## Directories that fail the check -/

theorem importsLoop_error_of_bad (w : Env) (dirs all : List String) (dir : String)
    (hdir : dir ∈ dirs) (hbad : ∃ h, statCheck w dir = some h) :
    ∃ h, importsLoop w dirs all = .error h := by
  induction dirs generalizing all with
  | nil => simp at hdir
  | cons d rest ih =>
    cases hstat : statCheck w d with
    | some h => exact ⟨h, by simp [importsLoop, hstat]⟩
    | none =>
      cases hpkg : w.ImportDir d with
      | error e => exact ⟨Halt.fatal e, by simp [importsLoop, hstat, hpkg]⟩
      | ok pkg =>
        have hmem : dir ∈ rest := by
          rcases List.mem_cons.mp hdir with h | h
          · subst h
            obtain ⟨h', hh⟩ := hbad
            rw [hstat] at hh
            simp at hh
          · exact h
        obtain ⟨h, hh⟩ := ih (pkg.Imports.foldl mapInsert all) hmem
        exact ⟨h, by simp [importsLoop, hstat, hpkg, hh]⟩

theorem statCheck_of_bad (w : Env) (dir : String)
    (hbad : w.Stat dir = .errNotExist ∨ w.Stat dir = .info false ∨
      ∃ msg, w.Stat dir = .errOther msg) :
    ∃ h, statCheck w dir = some h := by
  rcases hbad with h | h | ⟨msg, h⟩ <;> simp [statCheck, h]

theorem bad_directory_aborts (w : Env) (header dirs : String) (config : Config)
    (hcfg : parseConfig header dirs = .ok config) (dir : String) (hdir : dir ∈ config.Dirs)
    (hbad : w.Stat dir = .errNotExist ∨ w.Stat dir = .info false ∨
      ∃ msg, w.Stat dir = .errOther msg) :
    (∃ h, (main w header dirs).halt = some h) ∧ (main w header dirs).st = State.init := by
  obtain ⟨h, hh⟩ := importsLoop_error_of_bad w config.Dirs [] dir hdir
    (statCheck_of_bad w dir hbad)
  have hc : combinedImports w config.Dirs = .error h := by simp [combinedImports, hh]
  simp [main, hcfg, hc]

/-! ## The scenario -/

theorem demoEnv_dirOk : ∀ dir ∈ ["d1", "d2"], DirOk demoEnv dir := by
  intro dir hdir
  simp only [List.mem_cons, List.mem_singleton, List.not_mem_nil, or_false] at hdir
  rcases hdir with h | h <;> subst h
  · exact ⟨⟨rfl, ⟨_, rfl⟩⟩, ⟨_, rfl⟩⟩
  · exact ⟨⟨rfl, ⟨_, rfl⟩⟩, ⟨_, rfl⟩⟩

theorem demoEnv_noParseError : ∀ dir ∈ ["d1", "d2"], NoParseError demoEnv dir := by
  intro dir hdir
  simp only [List.mem_cons, List.mem_singleton, List.not_mem_nil, or_false] at hdir
  rcases hdir with h | h <;> subst h
  · intro file hfile hsel
    have hl : listingOf demoEnv "d1" =
        [⟨"hello.go", false⟩, ⟨"hello_test.go", false⟩, ⟨"sub", true⟩] := rfl
    rw [hl] at hfile
    simp only [List.mem_cons, List.mem_singleton, List.not_mem_nil, or_false] at hfile
    rcases hfile with h | h | h <;> subst h
    · exact ⟨_, rfl⟩
    · exact absurd hsel (by decide)
    · exact absurd hsel (by decide)
  · intro file hfile hsel
    have hl : listingOf demoEnv "d2" = [⟨"README", false⟩, ⟨"x.go", false⟩] := rfl
    rw [hl] at hfile
    simp only [List.mem_cons, List.mem_singleton, List.not_mem_nil, or_false] at hfile
    rcases hfile with h | h <;> subst h
    · exact absurd hsel (by decide)
    · exact ⟨_, rfl⟩

theorem demoEnv_node_ok (d : Decl) (h : d ∈ [Decl.GenDecl .IMPORT "import \"fmt\"",
      Decl.FuncDecl "func Hello() \x7b fmt.Println(\"hi\") \x7d",
      Decl.GenDecl .IMPORT "import \"os\"", Decl.GenDecl .VAR "var X = os.Args"]) :
    (demoEnv.Node d).2 = none := by
  simp only [List.mem_cons, List.mem_singleton, List.not_mem_nil, or_false] at h
  rcases h with h | h | h | h <;> subst h <;> rfl

theorem demoEnv_noFormatError : ∀ dir ∈ ["d1", "d2"], NoFormatError demoEnv dir := by
  intro dir hdir
  simp only [List.mem_cons, List.mem_singleton, List.not_mem_nil, or_false] at hdir
  rcases hdir with h | h <;> subst h
  · intro file hfile hsel d hd _
    have hl : listingOf demoEnv "d1" =
        [⟨"hello.go", false⟩, ⟨"hello_test.go", false⟩, ⟨"sub", true⟩] := rfl
    rw [hl] at hfile
    simp only [List.mem_cons, List.mem_singleton, List.not_mem_nil, or_false] at hfile
    rcases hfile with h | h | h <;> subst h
    · have hds : declsOf demoEnv "d1" "hello.go" =
          [Decl.GenDecl .IMPORT "import \"fmt\"",
            Decl.FuncDecl "func Hello() \x7b fmt.Println(\"hi\") \x7d"] := rfl
      rw [hds] at hd
      apply demoEnv_node_ok
      simp only [List.mem_cons, List.mem_singleton, List.not_mem_nil, or_false] at hd ⊢
      tauto
    · exact absurd hsel (by decide)
    · exact absurd hsel (by decide)
  · intro file hfile hsel d hd _
    have hl : listingOf demoEnv "d2" = [⟨"README", false⟩, ⟨"x.go", false⟩] := rfl
    rw [hl] at hfile
    simp only [List.mem_cons, List.mem_singleton, List.not_mem_nil, or_false] at hfile
    rcases hfile with h | h <;> subst h
    · exact absurd hsel (by decide)
    · have hds : declsOf demoEnv "d2" "x.go" =
          [Decl.GenDecl .IMPORT "import \"os\"", Decl.GenDecl .VAR "var X = os.Args"] := rfl
      rw [hds] at hd
      apply demoEnv_node_ok
      simp only [List.mem_cons, List.mem_singleton, List.not_mem_nil, or_false] at hd ⊢
      tauto

theorem demoEnv_checks : ∀ dir ∈ ["d1", "d2"], ChecksPass demoEnv dir := by
  intro dir hdir
  simp only [List.mem_cons, List.mem_singleton, List.not_mem_nil, or_false] at hdir
  rcases hdir with h | h <;> subst h
  · exact ⟨rfl, ⟨_, rfl⟩⟩
  · exact ⟨rfl, ⟨_, rfl⟩⟩

/-! ## Claims -/

/-- C1: when the checks pass for every directory, `combinedImports` returns a
list that is strictly increasing in lexicographic order and whose members are
exactly the import paths in the `Imports` list of some directory; hence any
other run (other order of directories, other order or repetition inside the
`Imports` lists, other map iteration order) with the same set of import paths
returns the same list. -/
theorem combinedImports_sorted_union (w : Env) (dirs : List String)
    (hok : ∀ dir ∈ dirs, ChecksPass w dir) :
    ∃ results, combinedImports w dirs = .ok results ∧
      StrictlyIncreasing results ∧
      (∀ p, p ∈ results ↔ ∃ dir ∈ dirs, p ∈ importsOf w dir) ∧
      ∀ (w' : Env) (dirs' : List String), (∀ dir ∈ dirs', ChecksPass w' dir) →
        (∀ p, (∃ dir ∈ dirs', p ∈ importsOf w' dir) ↔ ∃ dir ∈ dirs, p ∈ importsOf w dir) →
        combinedImports w' dirs' = .ok results := by
  obtain ⟨results, hres, hinc, hmem⟩ := combinedImports_spec w dirs hok
  refine ⟨results, hres, hinc, hmem, ?_⟩
  intro w' dirs' hok' hsame
  obtain ⟨results', hres', hinc', hmem'⟩ := combinedImports_spec w' dirs' hok'
  rw [hres']
  congr 1
  apply strict_unique _ _ hinc' hinc
  intro p
  rw [hmem' p, hmem p, hsame p]

/-- Witness of C1 on the scenario: the result is `["fmt", "os"]`, also for the
directories in the other order with shuffled, repeated imports. -/
theorem combinedImports_sorted_union_witness :
    combinedImports demoEnv ["d1", "d2"] = .ok ["fmt", "os"] ∧
    combinedImports demoEnvShuffled ["d2", "d1"] = .ok ["fmt", "os"] ∧
    ∃ results, combinedImports demoEnv ["d1", "d2"] = .ok results ∧
      StrictlyIncreasing results ∧
      (∀ p, p ∈ results ↔ ∃ dir ∈ ["d1", "d2"], p ∈ importsOf demoEnv dir) ∧
      ∀ (w' : Env) (dirs' : List String), (∀ dir ∈ dirs', ChecksPass w' dir) →
        (∀ p, (∃ dir ∈ dirs', p ∈ importsOf w' dir) ↔
          ∃ dir ∈ ["d1", "d2"], p ∈ importsOf demoEnv dir) →
        combinedImports w' dirs' = .ok results :=
  ⟨rfl, rfl, combinedImports_sorted_union demoEnv ["d1", "d2"] demoEnv_checks⟩

/-- C2: in a run where every directory passes its checks and can be listed, and
no selected file fails to parse and no declaration fails to print, the
declarations handed to `format.Node` are, in order, the non-import declarations
of the selected files of the directories: directories in caller order, files in
listing order, declarations in source order, nothing dropped or merged. -/
theorem main_declaration_order (w : Env) (header dirs : String) (config : Config)
    (hcfg : parseConfig header dirs = .ok config)
    (hok : ∀ dir ∈ config.Dirs, DirOk w dir)
    (hparse : ∀ dir ∈ config.Dirs, NoParseError w dir)
    (hfmt : ∀ dir ∈ config.Dirs, NoFormatError w dir) :
    nodesOf (main w header dirs).st.output = expectedDecls w config.Dirs := by
  obtain ⟨imports, himp, _, _⟩ :=
    combinedImports_spec w config.Dirs (fun dir hdir => (hok dir hdir).1)
  rw [(main_eq_of_config w header dirs config imports hcfg himp).1,
    (dirLoop_zero_nodes w config imports config.Dirs State.init hok hparse hfmt).2]
  simp [State.init, nodesOf]

/-- C3: standard output receives either exactly one write, the result of
`format.Source` on the whole buffer, in a run that was not cut short; or nothing
at all, in a run cut short by `log.Fatal` or a panic; and a run in which
`format.Source` fails on the buffer writes nothing and is cut short. -/
theorem main_stdout_all_or_nothing (w : Env) (header dirs : String) :
    (((main w header dirs).halt = none ∧
        ∃ out, w.Source (Bytes (main w header dirs).st.output) = .ok out ∧
          (main w header dirs).st.stdout = [out]) ∨
      ((∃ h, (main w header dirs).halt = some h) ∧ (main w header dirs).st.stdout = [])) ∧
    ∀ e, w.Source (Bytes (main w header dirs).st.output) = .error e →
      (∃ h, (main w header dirs).halt = some h) ∧ (main w header dirs).st.stdout = [] := by
  have hcases := main_stdout_cases w header dirs
  refine ⟨hcases, ?_⟩
  intro e he
  rcases hcases with ⟨_, out, hout, _⟩ | h
  · rw [he] at hout
    cases hout
  · exact h

/-- C4: the loop over the declarations of a parsed file hands no import
declaration to `format.Node`, however many the file has; when no declaration
fails to print it hands over every other declaration of the file, in order;
and no write in the buffer of a run of `main` is an import declaration. -/
theorem declLoop_strips_imports (w : Env) (ds : List Decl) (st : State) :
    (∃ app, (declLoop w ds st).output = st.output ++ app ∧
      ∀ d ∈ nodesOf app, d ∈ ds ∧ isImportDecl d = false) ∧
    ((∀ d ∈ ds, isImportDecl d = false → (w.Node d).2 = none) →
      nodesOf (declLoop w ds st).output =
        nodesOf st.output ++ ds.filter (fun d => !isImportDecl d)) ∧
    ∀ header dirs, ∀ d ∈ nodesOf (main w header dirs).st.output,
      isImportDecl d = false := by
  refine ⟨?_, fun hfmt => (declLoop_nodes w ds st hfmt).1, ?_⟩
  · obtain ⟨app, h1, _, h3⟩ := declLoop_writes w ds st
    refine ⟨app, h1, ?_⟩
    intro d hd
    unfold nodesOf at hd
    rw [List.mem_filterMap] at hd
    obtain ⟨wr, hwr, heq⟩ := hd
    rcases h3 wr hwr with h | ⟨d', hd', himp, h⟩
    · subst h; simp at heq
    · subst h
      simp only [Option.some.injEq] at heq
      subst heq
      exact ⟨hd', himp⟩
  · intro header dirs d hd
    rcases main_output_cases w header dirs with h | ⟨config, imports, Name, body, h1, h2⟩
    · rw [h] at hd; simp [nodesOf] at hd
    · rw [h1, nodesOf_append, nodesOf_headerWrites, List.nil_append] at hd
      exact not_import_of_mem_nodesOf body h2 d hd

/-- C6: when the run reaches the first directory (the imports were combined and
the first directory was listed), the buffer is the header, the package clause
and the import block, written once with the package name of the first
directory, followed only by blank lines, file markers and declarations. -/
theorem header_once_first_package (w : Env) (header dirs : String) (config : Config)
    (dir : String) (rest imports : List String) (listing : List DirEntry)
    (hcfg : parseConfig header dirs = .ok config)
    (hdirs : config.Dirs = dir :: rest)
    (himp : combinedImports w config.Dirs = .ok imports)
    (hread : w.ReadDir dir = .ok listing) :
    ∃ imported body, w.ImportDir dir = .ok imported ∧
      (main w header dirs).st.output =
        headerWrites w config imports imported.Name ++ body ∧
      ∀ wr ∈ body, isBodyWrite wr = true := by
  rw [(main_eq_of_config w header dirs config imports hcfg himp).1]
  rw [hdirs] at himp ⊢
  obtain ⟨hstat, imported, hpkg⟩ := combinedImports_head w dir rest imports himp
  rw [dirLoop_zero w config imports dir rest State.init listing imported hstat hread hpkg]
  obtain ⟨body, h1, _, h3⟩ := dirLoop_succ_writes w config imports 0 rest
    (fileLoop w dir listing (emitHeader w config imports imported.Name State.init))
  obtain ⟨app, g1, _, g3⟩ := fileLoop_writes w dir listing
    (emitHeader w config imports imported.Name State.init)
  refine ⟨imported, app ++ body, hpkg, ?_, ?_⟩
  · rw [h1, g1, emitHeader_eq]
    simp [State.init]
  · intro wr hwr
    rcases List.mem_append.mp hwr with h | h
    · exact g3 wr h
    · exact h3 wr h

/-- C5: an entry whose name ends in `_test.go` adds nothing to the buffer: the
loop over a listing gives the same state as over the listing without such
entries, the `// FILE:` markers it writes are the names of the entries that
are not directories, not test files and end in `.go`, and a run of `main` is
the same when the test files are removed from every listing. -/
theorem test_files_excluded (w : Env) :
    (∀ dir listing st,
      fileLoop w dir (listing.filter (fun file => !isTestFile file)) st =
        fileLoop w dir listing st) ∧
    (∀ dir listing st,
      markersOf (fileLoop w dir listing st).output =
        markersOf st.output ++ (listing.filter Selected).map DirEntry.Name) ∧
    ∀ header dirs, main (dropTests w) header dirs = main w header dirs := by
  have hkeep : ∀ file, Selected file = true → (!isTestFile file) = true := by
    intro file hsel
    obtain ⟨_, h2, _⟩ := (selected_iff file).mp hsel
    simp [isTestFile, h2]
  refine ⟨?_, fun dir listing st => fileLoop_markers w dir listing st, ?_⟩
  · intro dir listing st
    exact fileLoop_filter w dir _ hkeep listing st
  · intro header dirs
    exact main_congr w (dropTests w) rfl rfl rfl rfl rfl rfl rfl rfl _ hkeep
      (fun _ => rfl) header dirs

/-- C7, refuted as stated: the same directories and the same header give a
different buffer, and different bytes on standard output, when only the clock
differs (`demoEnvLater` is `demoEnv` one day later). -/
theorem main_output_depends_on_clock :
    (main demoEnv "v1" "d1:d2").halt = none ∧
    (main demoEnvLater "v1" "d1:d2").halt = none ∧
    Bytes (main demoEnvLater "v1" "d1:d2").st.output ≠
      Bytes (main demoEnv "v1" "d1:d2").st.output ∧
    (main demoEnvLater "v1" "d1:d2").st.stdout ≠ (main demoEnv "v1" "d1:d2").st.stdout := by
  refine ⟨by decide, by decide, by decide, by decide⟩

/-- C7, amended: with the same directories, the same header and the same
reading of the clock, two runs end in the same state and write the same bytes,
whatever the map iteration order. -/
theorem main_deterministic_given_clock (w w' : Env) (h : SameInputs w w')
    (header dirs : String) : main w' header dirs = main w header dirs := by
  obtain ⟨hS, hI, hR, hP, hJ, hN, hF, hQ, hT⟩ := h
  refine main_congr w w' hS hI hP hJ hN hF hQ hT (fun _ => true) (fun _ _ => rfl) ?_
    header dirs
  intro dir
  rw [← hR]
  cases w.ReadDir dir with
  | error e => rfl
  | ok listing => simp

/-- Witness of C7 as amended: the scenario with the map ranged over forwards and
backwards. -/
theorem main_deterministic_given_clock_witness :
    SameInputs demoEnv demoEnvRev ∧
    main demoEnvRev "v1" "d1:d2" = main demoEnv "v1" "d1:d2" :=
  ⟨⟨rfl, rfl, rfl, rfl, rfl, rfl, rfl, rfl, rfl⟩,
   main_deterministic_given_clock demoEnv demoEnvRev
     ⟨rfl, rfl, rfl, rfl, rfl, rfl, rfl, rfl, rfl⟩ "v1" "d1:d2"⟩

/-- C8, at the failing input: when `os.Stat` fails with an error other than
not-exist, the directory check does not reach `log.Fatal`; the run ends in a
nil-pointer panic (nothing is written), while a path that does not exist ends
in `log.Fatal`. -/
theorem stat_other_error_panics :
    (main statErrEnv "" "d1:d1/hello.go/x").halt =
      some (Halt.panic "invalid memory address or nil pointer dereference") ∧
    (main statErrEnv "" "d1:d1/hello.go/x").st = State.init ∧
    (main statErrEnv "" "d1:missing").halt =
      some (Halt.fatal "Specified directory does not exist:missing") := by
  refine ⟨by decide, by decide, by decide⟩

/-- C9: a parse failure of a selected file is logged and leaves only the marker
of the file in the buffer, the loop going on with the next entry; a run of
`main` has the same buffer, the same standard output and ends the same way as
the run in which that file parses to no declarations; and when every directory
passes its checks the run is cut short by nothing but a failure of
`format.Source`. -/
theorem parse_failure_nonfatal (w : Env) (p err : String)
    (hp : w.ParseFile p = .error err) :
    (∀ dir file rest st, Selected file = true → w.Join dir file.Name = p →
      fileLoop w dir (file :: rest) st =
        fileLoop w dir rest
          { output := st.output ++
              [Write.line [], Write.line ["// FILE:", file.Name], Write.line []],
            log := st.log ++ [err],
            stdout := st.stdout }) ∧
    (∀ header dirs,
      (main w header dirs).st.output = (main (emptyFileAt w p) header dirs).st.output ∧
      (main w header dirs).st.stdout = (main (emptyFileAt w p) header dirs).st.stdout ∧
      (main w header dirs).halt = (main (emptyFileAt w p) header dirs).halt) ∧
    ∀ header dirs config, parseConfig header dirs = .ok config →
      (∀ dir ∈ config.Dirs, DirOk w dir) →
      ∀ h, (main w header dirs).halt = some h →
        ∃ e, w.Source (Bytes (main w header dirs).st.output) = .error e ∧
          h = Halt.fatal e := by
  refine ⟨?_, ?_, ?_⟩
  · intro dir file rest st hsel hq
    rw [fileLoop_parse_error w dir file rest st err hsel (by rw [hq, hp])]
    simp [State.emit, State.logln]
  · intro header dirs
    obtain ⟨⟨ho, hs⟩, hh⟩ := main_patch w p err hp header dirs
    exact ⟨ho, hs, hh⟩
  · intro header dirs config hcfg hok
    obtain ⟨imports, himp, _, _⟩ :=
      combinedImports_spec w config.Dirs (fun dir hdir => (hok dir hdir).1)
    exact (main_eq_of_config w header dirs config imports hcfg himp).2
      (dirLoop_halt_none w config imports 0 config.Dirs State.init hok)

/-- Witness of C2 on the scenario: the function of `d1/hello.go`, then the
variable of `d2/x.go`. -/
theorem main_declaration_order_witness :
    expectedDecls demoEnv ["d1", "d2"] =
      [Decl.FuncDecl "func Hello() \x7b fmt.Println(\"hi\") \x7d",
        Decl.GenDecl .VAR "var X = os.Args"] ∧
    nodesOf (main demoEnv "v1" "d1:d2").st.output = expectedDecls demoEnv ["d1", "d2"] :=
  ⟨by decide,
   main_declaration_order demoEnv "v1" "d1:d2" ⟨["d1", "d2"], "v1"⟩ rfl
     demoEnv_dirOk demoEnv_noParseError demoEnv_noFormatError⟩

/-- Witness of C4: a file with two import declarations and a failing
declaration in the middle. -/
theorem declLoop_strips_imports_witness :
    nodesOf (declLoop demoEnv
      [Decl.GenDecl .IMPORT "import \"fmt\"", Decl.GenDecl .CONST "const A = 1",
        Decl.GenDecl .IMPORT "import \"os\"", Decl.FuncDecl "func F() \x7b\x7d"] State.init).output =
      [Decl.GenDecl .CONST "const A = 1", Decl.FuncDecl "func F() \x7b\x7d"] ∧
    nodesOf (declLoop demoEnv
      [Decl.GenDecl .IMPORT "import \"fmt\"", Decl.BadDecl "", Decl.FuncDecl "func F() \x7b\x7d"]
      State.init).output = [Decl.BadDecl ""] ∧
    ∀ d ∈ nodesOf (main demoEnv "v1" "d1:d2").st.output, isImportDecl d = false :=
  ⟨by decide, by decide,
   (declLoop_strips_imports demoEnv [] State.init).2.2 "v1" "d1:d2"⟩

/-- Witness of C6 on the scenario: the package clause is `package demo`, the
package of `d1`, although `d2` holds package `other`. -/
theorem header_once_first_package_witness :
    headerWrites demoEnv ⟨["d1", "d2"], "v1"⟩ ["fmt", "os"] "demo" =
      [.line ["// Package", "demo", "info:", "v1"],
        .line ["// AUTO-GENERATED:", "2024-01-01 00:00:00 +0000 UTC"],
        .line ["package", "demo"], .line [], .line ["import ("],
        .line ["\"fmt\""], .line ["\"os\""], .line [")"], .line []] ∧
    ∃ imported body, demoEnv.ImportDir "d1" = .ok imported ∧
      (main demoEnv "v1" "d1:d2").st.output =
        headerWrites demoEnv ⟨["d1", "d2"], "v1"⟩ ["fmt", "os"] imported.Name ++ body ∧
      ∀ wr ∈ body, isBodyWrite wr = true :=
  ⟨by decide,
   header_once_first_package demoEnv "v1" "d1:d2" ⟨["d1", "d2"], "v1"⟩ "d1" ["d2"]
     ["fmt", "os"] [⟨"hello.go", false⟩, ⟨"hello_test.go", false⟩, ⟨"sub", true⟩]
     rfl rfl rfl rfl⟩

/-- Witness of C9: `d1/broken.go` does not parse; the run goes on to
`hello.go` and `d2`, logs the error and still writes to standard output. -/
theorem parse_failure_nonfatal_witness :
    brokenEnv.ParseFile "d1/broken.go" = .error "expected 'package'" ∧
    (main brokenEnv "v1" "d1:d2").st.log = ["expected 'package'"] ∧
    (main brokenEnv "v1" "d1:d2").halt = none ∧
    markersOf (main brokenEnv "v1" "d1:d2").st.output = ["broken.go", "hello.go", "x.go"] ∧
    nodesOf (main brokenEnv "v1" "d1:d2").st.output =
      [Decl.FuncDecl "func Hello() \x7b fmt.Println(\"hi\") \x7d",
        Decl.GenDecl .VAR "var X = os.Args"] ∧
    (main brokenEnv "v1" "d1:d2").st.output =
      (main (emptyFileAt brokenEnv "d1/broken.go") "v1" "d1:d2").st.output :=
  ⟨rfl, by decide, by decide, by decide, by decide,
   ((parse_failure_nonfatal brokenEnv "d1/broken.go" "expected 'package'" rfl).2.1
     "v1" "d1:d2").1⟩

end Mergepkg
